import Mathlib

/-!
Verification of the Trans_bot frontend (React/TypeScript) against its
natural-language specification.

The repository's files under `src/` are the frontend of a RAG ("retrieval
augmented generation") legal-question assistant: `src/frontend/src/services/api.ts`
(the typed API client), `src/frontend/src/components/RAGPage.tsx` and an earlier
unstyled variant of the same page (`src/unnamed/part_001`), a search page and the
shared TypeScript interfaces (`src/unnamed/part_000`), and the practice-quiz page
(`src/frontend/src/pages/Practice.tsx`).

Strings manipulated by the code are embedded as `List Char`; JavaScript string
methods (`trim`, `toLowerCase`, `length`, `split`, regex `test`) are embedded
below, faithful to their ECMAScript semantics on the inputs the code builds.
CSS class names and JSON field names, which the code only passes around intact,
stay Lean `String`s.
-/

/-! ## JavaScript string primitives used by the frontend -/

/-- Whitespace as recognised by the embedding of `String.prototype.trim`
(space, tab, newline, carriage return cover every character the pages put in
queries). -/
def isWS (c : Char) : Bool :=
  c == ' ' || c == '\t' || c == '\n' || c == '\r'

/-- Embedding of JavaScript `s.trim()`: strip leading and trailing whitespace. -/
def trimWS (s : List Char) : List Char :=
  ((s.dropWhile isWS).reverse.dropWhile isWS).reverse

/-- Embedding of JavaScript `s.toLowerCase()` on the basic-latin letters the
pages compare (`"alta"`, `"media"`, `"baja"`). -/
def lowerStr (s : List Char) : List Char :=
  s.map Char.toLower

/-! ## The API client (`src/frontend/src/services/api.ts`)

The second document in `api.ts` declares the response interfaces and the
`apiService` methods. Each TypeScript interface is transcribed as a list of
`(field name, optional?)` pairs in declaration order — `true` marks a `?`
(optional) field — together with a Lean structure whose optional fields are
`Option`-typed. -/

/-- Fields of `interface SearchResult` (api.ts lines 44-49): all required. -/
def searchResultFields : List (String × Bool) :=
  [("id", false), ("contenido", false), ("similarity_score", false), ("distance", false)]

/-- Fields of `interface SearchResponse` (api.ts lines 51-54): all required. -/
def searchResponseFields : List (String × Bool) :=
  [("query", false), ("results", false)]

/-- Fields of `interface HealthResponse` (api.ts lines 61-67): `rag_enabled`
and `llm_provider` carry `?`. -/
def healthResponseFields : List (String × Bool) :=
  [("status", false), ("database_ready", false), ("total_articles", false),
   ("rag_enabled", true), ("llm_provider", true)]

/-- Fields of `interface RAGSource` (api.ts lines 70-75): all required. -/
def ragSourceFields : List (String × Bool) :=
  [("id", false), ("contenido", false), ("similarity_score", false), ("relevance", false)]

/-- Fields of `interface RAGResponse` (api.ts lines 77-85): `model_used`,
`articles_consulted` and `error` carry `?`. -/
def ragResponseFields : List (String × Bool) :=
  [("query", false), ("response", false), ("sources", false), ("confidence", false),
   ("model_used", true), ("articles_consulted", true), ("error", true)]

/-- `interface SearchResult` as a structure. Scores are embedded as rationals. -/
structure SearchResult where
  id : Int
  contenido : List Char
  similarity_score : ℚ
  distance : ℚ
deriving DecidableEq

/-- `interface SearchResponse` as a structure. -/
structure SearchResponse where
  query : List Char
  results : List SearchResult
deriving DecidableEq

/-- `interface HealthResponse` as a structure (`?` fields are `Option`s). -/
structure HealthResponse where
  status : List Char
  database_ready : Bool
  total_articles : Nat
  rag_enabled : Option Bool
  llm_provider : Option (List Char)
deriving DecidableEq

/-- `interface RAGSource` as a structure. -/
structure RAGSource where
  id : Int
  contenido : List Char
  similarity_score : ℚ
  relevance : List Char
deriving DecidableEq

/-- `interface RAGResponse` as a structure (`?` fields are `Option`s). -/
structure RAGResponse where
  query : List Char
  response : List Char
  sources : List RAGSource
  confidence : ℚ
  model_used : Option (List Char)
  articles_consulted : Option Nat
  error : Option (List Char)
deriving DecidableEq

/-- A concrete well-typed `RAGResponse` whose `articles_consulted` is absent:
the interface admits it because the field is declared optional. -/
def ragResponseNoCount : RAGResponse :=
  { query := [], response := [], sources := [], confidence := 0,
    model_used := none, articles_consulted := none, error := none }

/-- JSON payload values put in POST bodies by the client (strings and counts
are the only kinds the observed calls send). -/
inductive JVal where
  | str (s : List Char) : JVal
  | num (n : Nat) : JVal
deriving DecidableEq

/-- An HTTP POST issued through `api.post(path, body)`: the path and the body
object's fields in written order. -/
structure ApiRequest where
  path : String
  body : List (String × JVal)
deriving DecidableEq

/-- Embedding of `chatWithRAG` (api.ts lines 104-107): the TypeScript default
parameter `maxArticles: number = 5` is embedded as an `Option Nat` argument
(`none` = the caller omitted it) resolved with `Option.getD 5`; the call posts
`{ query, max_articles: maxArticles }` to `/chat`. -/
def chatWithRAG (query : List Char) (maxArticles : Option Nat) : ApiRequest :=
  { path := "/chat",
    body := [("query", JVal.str query), ("max_articles", JVal.num (maxArticles.getD 5))] }

/-- Embedding of `searchArticles` (api.ts lines 116-119): the TypeScript
default parameter `n_results: number = 5` is embedded as an `Option Nat`
argument resolved with `Option.getD 5`; the call posts `{ query, n_results }`
to `/search`. -/
def searchArticles (query : List Char) (n_results : Option Nat) : ApiRequest :=
  { path := "/search",
    body := [("query", JVal.str query), ("n_results", JVal.num (n_results.getD 5))] }

/-- The field names of a request body, in written order. -/
def bodyKeys (r : ApiRequest) : List String :=
  r.body.map Prod.fst

/-! ## The RAG page (`src/frontend/src/components/RAGPage.tsx`, and the earlier
variant `src/unnamed/part_001`, whose handler code is identical) -/

/-- The `useState` pieces of `RAGPage` that `handleRAGChat` reads or writes. -/
structure RAGPageState where
  query : List Char
  ragResponse : Option RAGResponse
  loading : Bool
  error : Option (List Char)
  showSources : Bool
deriving DecidableEq

/-- Embedding of `handleRAGChat` (RAGPage.tsx lines 26-47) up to its first
suspension point: `if (!query.trim()) return;` leaves the state alone and
issues no request; otherwise the handler sets `loading`, clears `error` and
`showSources`, and invokes `apiService.chatWithRAG(query, 5)`. The emitted
request (if any) is returned beside the new state. -/
def handleRAGChat (st : RAGPageState) : RAGPageState × Option ApiRequest :=
  if trimWS st.query = [] then (st, none)
  else ({ st with loading := true, error := none, showSources := false },
        some (chatWithRAG st.query (some 5)))

/-- Embedding of `getConfidenceColor` (RAGPage.tsx lines 49-53). -/
def getConfidenceColor (confidence : ℚ) : String :=
  if confidence ≥ 7/10 then "bg-green-50 text-green-700 border-green-200"
  else if confidence ≥ 5/10 then "bg-amber-50 text-amber-700 border-amber-200"
  else "bg-red-50 text-red-700 border-red-200"

/-- Embedding of `getRelevanceColor` (RAGPage.tsx lines 55-62): a `switch` on
`relevance.toLowerCase()` over the three tier names with a default. -/
def getRelevanceColor (relevance : List Char) : String :=
  if lowerStr relevance = "alta".toList then "bg-green-50 text-green-700 border-green-200"
  else if lowerStr relevance = "media".toList then "bg-amber-50 text-amber-700 border-amber-200"
  else if lowerStr relevance = "baja".toList then "bg-red-50 text-red-700 border-red-200"
  else "bg-muted text-muted-foreground border-border"

/-- Embedding of `getRelevanceColor` in the earlier RAGPage variant
(src/unnamed/part_001 lines 55-62): same switch, different class strings. -/
def getRelevanceColorV1 (relevance : List Char) : String :=
  if lowerStr relevance = "alta".toList then "bg-green-100 text-green-800"
  else if lowerStr relevance = "media".toList then "bg-yellow-100 text-yellow-800"
  else if lowerStr relevance = "baja".toList then "bg-red-100 text-red-800"
  else "bg-gray-100 text-gray-800"

/-- The eight example queries offered by RAGPage.tsx (lines 287-296); clicking
one replaces the query state with its text. -/
def ragExamples : List (List Char) :=
  ["¿Cuál es la velocidad máxima permitida en zona urbana?".toList,
   "¿Qué sanciones hay por conducir bajo efectos del alcohol?".toList,
   "¿Qué dice sobre el uso obligatorio del cinturón de seguridad?".toList,
   "¿Cuáles son las normas para estacionar vehículos?".toList,
   "¿Qué infracciones pueden llevar a la suspensión de licencia?".toList,
   "¿Cómo deben comportarse los conductores ante semáforos?".toList,
   "¿Qué regulaciones existen para vehículos de emergencia?".toList,
   "¿Cuáles son los requisitos para obtener licencia de conducir?".toList]

/-- Query texts reachable in the styled RAGPage (RAGPage.tsx): the state starts
empty; `onChange` stores the textarea value, which the DOM truncates to the
`maxLength={500}` attribute (line 115); an example button stores one of the
eight fixed strings. -/
inductive RagQueryReach : List Char → Prop where
  | init : RagQueryReach []
  | input (q s : List Char) (h : RagQueryReach q) (hl : s.length ≤ 500) : RagQueryReach s
  | exampleClick (q s : List Char) (h : RagQueryReach q) (hs : s ∈ ragExamples) : RagQueryReach s

/-- Query texts reachable in the earlier RAGPage variant (src/unnamed/part_001):
its textarea has no `maxLength`, so `onChange` may store a value of any length. -/
inductive RagQueryReachV1 : List Char → Prop where
  | init : RagQueryReachV1 []
  | input (q s : List Char) (h : RagQueryReachV1 q) : RagQueryReachV1 s
  | exampleClick (q s : List Char) (h : RagQueryReachV1 q) (hs : s ∈ ragExamples) :
      RagQueryReachV1 s

/-! ## The search page (`src/unnamed/part_000`, component `SearchPage`) -/

/-- The `useState` pieces of `SearchPage` that `handleSearch` reads or writes. -/
structure SearchPageState where
  query : List Char
  results : Option SearchResponse
  loading : Bool
  error : Option (List Char)
deriving DecidableEq

/-- Embedding of `handleSearch` (src/unnamed/part_000 lines 70-86) up to its
first suspension point: `if (!query.trim()) return;` leaves the state alone and
issues no request; otherwise the handler sets `loading`, clears `error`, and
invokes `apiService.searchArticles(query, 5)`. -/
def handleSearch (st : SearchPageState) : SearchPageState × Option ApiRequest :=
  if trimWS st.query = [] then (st, none)
  else ({ st with loading := true, error := none },
        some (searchArticles st.query (some 5)))

/-! ## The practice page (`src/frontend/src/pages/Practice.tsx`) -/

/-- The practice score state, `useState({ correct: 0, total: 0 })`
(Practice.tsx line 12). JavaScript numbers holding counts are embedded as
integers so that the lower bound of the invariant is meaningful. -/
structure Score where
  correct : Int
  total : Int
deriving DecidableEq

/-- Embedding of the score update in `handleAnswerSubmit` (Practice.tsx lines
45-62): `correct` gains 1 exactly when the checked answer was correct, `total`
always gains 1. -/
def submitAnswerScore (s : Score) (answerCorrect : Bool) : Score :=
  { correct := s.correct + (if answerCorrect then 1 else 0), total := s.total + 1 }

/-- Embedding of the reset button, `setScore({ correct: 0, total: 0 })`
(Practice.tsx lines 231-236). -/
def resetScore : Score :=
  { correct := 0, total := 0 }

/-- Score states reachable in the practice page: the initial state, every
answer submission, and the reset button. -/
inductive ScoreReach : Score → Prop where
  | init : ScoreReach { correct := 0, total := 0 }
  | submit (s : Score) (b : Bool) (h : ScoreReach s) : ScoreReach (submitAnswerScore s b)
  | reset (s : Score) (h : ScoreReach s) : ScoreReach resetScore

/-! ## The confidence scorer (backend; modelled from the spec)

Only the frontend is among the repository's files: the engine that computes a
`RAGResponse`'s `confidence` is consumed through `POST /chat` but its code is
not under `src/`. -/

/-- Best-match-dominated aggregate of the candidates' similarity scores with
geometrically diminishing weights (the candidate list arrives sorted with the
best match first). -/
def geomAgg : List ℚ → ℚ
  | [] => 0
  | s :: rest => s / 2 + geomAgg rest / 2

/-- Modelled from the spec: the backend `ConfidenceScorer` (spec §4.5) is not
among the files under `src/`, so its `score(candidates)` is modelled from the
spec's words — "empty candidate set → confidence 0", otherwise "a deterministic
aggregate dominated by the best match with diminishing contribution from the
rest"; the aggregate is floored at 1/10 so that, per the spec's stated policy,
a non-empty candidate set never scores 0. -/
def confidenceScore (sims : List ℚ) : ℚ :=
  if sims = [] then 0 else max (1/10) (geomAgg sims)

/-! ## highlightText (`src/unnamed/part_000` lines 88-99)

`highlightText` builds `new RegExp('(' + escaped + ')', 'gi')` where `escaped`
is the query with every regex metacharacter backslash-escaped — a regex that
matches exactly the literal query text, case-insensitively. It then computes
`text.split(regex)` (whose odd-position elements are the captured matches) and
maps `regex.test(part)` over the parts, wrapping the parts that test true in a
`<mark>` element. The embedding below keeps the ECMAScript statefulness of the
shared global regex: `test` starts searching at the regex's `lastIndex`, sets
it past the match on success and resets it to 0 on failure, and the `lastIndex`
persists from one `test` call to the next. -/

/-- Does the pattern begin the string (character-for-character)? -/
def beginsWith : List Char → List Char → Bool
  | [], _ => true
  | _ :: _, [] => false
  | a :: as, b :: bs => a == b && beginsWith as bs

/-- Case-insensitive version: the `i` flag is embedded by lowercasing both
sides before comparing. -/
def beginsWithCI (pat s : List Char) : Bool :=
  beginsWith (lowerStr pat) (lowerStr s)

/-- Leftmost case-insensitive occurrence of the literal pattern: `none` when
the string contains none, otherwise `some (pre, m, post)` where `m` is the
matched slice (original casing) and `pre ++ m ++ post` is the string. -/
def findFirst (pat : List Char) : List Char → Option (List Char × List Char × List Char)
  | [] => if beginsWithCI pat [] then some ([], [], []) else none
  | c :: rest =>
    if beginsWithCI pat (c :: rest) then
      some ([], List.take pat.length (c :: rest), List.drop pat.length (c :: rest))
    else (findFirst pat rest).map (fun x => (c :: x.1, x.2.1, x.2.2))

/-- Does the string contain a case-insensitive occurrence of the literal
pattern? This is what a stateless `regex.test` would decide. -/
def containsCI (pat s : List Char) : Bool :=
  (findFirst pat s).isSome

/-- Length bookkeeping for `findFirst`: the matched slice is as long as the
pattern and the three pieces reassemble the string. -/
theorem findFirst_pieces (pat : List Char) :
    ∀ s pre m post, findFirst pat s = some (pre, m, post) → s = pre ++ m ++ post := by
  intro s
  induction s with
  | nil =>
    intro pre m post h
    simp only [findFirst] at h
    split at h
    · simp only [Option.some.injEq, Prod.mk.injEq] at h
      obtain ⟨h1, h2, h3⟩ := h
      subst h1; subst h2; subst h3
      rfl
    · exact absurd h (by simp)
  | cons c rest ih =>
    intro pre m post h
    simp only [findFirst] at h
    split at h
    · simp only [Option.some.injEq, Prod.mk.injEq] at h
      obtain ⟨h1, h2, h3⟩ := h
      subst h1; subst h2; subst h3
      simp
    · rw [Option.map_eq_some'] at h
      obtain ⟨⟨pre', m', post'⟩, hf, hx⟩ := h
      simp only [Prod.mk.injEq] at hx
      obtain ⟨h1, h2, h3⟩ := hx
      subst h1; subst h2; subst h3
      have hrest := ih pre' m' post' hf
      simp [hrest]

/-- A pattern that begins a string still begins any extension of it. -/
theorem bw_append_right (p : List Char) :
    ∀ s t, beginsWith p s = true → beginsWith p (s ++ t) = true := by
  induction p with
  | nil => intro s t _; rfl
  | cons a as ih =>
    intro s t h
    cases s with
    | nil => simp [beginsWith] at h
    | cons b bs =>
      simp only [beginsWith, Bool.and_eq_true, beq_iff_eq] at h ⊢
      exact ⟨h.1, ih bs t h.2⟩

/-- Only the empty pattern begins the empty string. -/
theorem bw_nil (p : List Char) (h : beginsWith p [] = true) : p = [] := by
  cases p with
  | nil => rfl
  | cons a as => simp [beginsWith] at h

/-- The pattern is what the string it begins starts with. -/
theorem bw_take_eq (p : List Char) :
    ∀ s, beginsWith p s = true → s.take p.length = p := by
  induction p with
  | nil => intro s _; rfl
  | cons a as ih =>
    intro s h
    cases s with
    | nil => simp [beginsWith] at h
    | cons b bs =>
      simp only [beginsWith, Bool.and_eq_true, beq_iff_eq] at h
      simp [List.take, ih bs h.2, h.1.symm]

/-- Every pattern begins itself. -/
theorem bw_refl (p : List Char) : beginsWith p p = true := by
  induction p with
  | nil => rfl
  | cons a as ih => simp [beginsWith, ih]

/-- A non-empty pattern does not occur in the empty string. -/
theorem findFirst_nil_of_ne (pat : List Char) (hp : pat ≠ []) :
    findFirst pat [] = none := by
  have hb : beginsWithCI pat [] = false := by
    cases hq : lowerStr pat with
    | nil =>
      simp only [lowerStr] at hq
      exact absurd (List.map_eq_nil_iff.mp hq) hp
    | cons a as =>
      simp only [beginsWithCI, lowerStr, List.map_nil] at hq ⊢
      rw [hq]
      rfl
  simp [findFirst, hb]

/-- The matched slice of `findFirst` is the pattern up to letter case. -/
theorem findFirst_lower (pat : List Char) :
    ∀ s pre m post, findFirst pat s = some (pre, m, post) → lowerStr m = lowerStr pat := by
  intro s
  induction s with
  | nil =>
    intro pre m post h
    simp only [findFirst] at h
    split at h
    · next hb =>
      simp only [Option.some.injEq, Prod.mk.injEq] at h
      obtain ⟨-, h2, -⟩ := h
      have hpl : lowerStr pat = [] := bw_nil _ hb
      subst h2
      rw [hpl]
      simp [lowerStr]
    · exact absurd h (by simp)
  | cons c rest ih =>
    intro pre m post h
    simp only [findFirst] at h
    split at h
    · next hb =>
      simp only [Option.some.injEq, Prod.mk.injEq] at h
      obtain ⟨-, h2, -⟩ := h
      subst h2
      have := bw_take_eq (lowerStr pat) (lowerStr (c :: rest)) hb
      calc lowerStr (List.take pat.length (c :: rest))
          = List.take pat.length (lowerStr (c :: rest)) := by
            simp [lowerStr, List.map_take]
        _ = List.take (lowerStr pat).length (lowerStr (c :: rest)) := by
            simp [lowerStr]
        _ = lowerStr pat := this
    · rw [Option.map_eq_some'] at h
      obtain ⟨⟨pre', m', post'⟩, hf, hx⟩ := h
      simp only [Prod.mk.injEq] at hx
      obtain ⟨-, h2, -⟩ := hx
      subst h2
      exact ih pre' m' post' hf

/-- The matched slice of `findFirst` is as long as the pattern. -/
theorem findFirst_mlen (pat : List Char) (s pre m post : List Char)
    (h : findFirst pat s = some (pre, m, post)) : m.length = pat.length := by
  have := findFirst_lower pat s pre m post h
  have h1 : (lowerStr m).length = (lowerStr pat).length := by rw [this]
  simpa [lowerStr] using h1

/-- The text before the leftmost occurrence contains no occurrence. -/
theorem findFirst_chunk (pat : List Char) (hp : pat ≠ []) :
    ∀ s pre m post, findFirst pat s = some (pre, m, post) → findFirst pat pre = none := by
  intro s
  induction s with
  | nil =>
    intro pre m post h
    simp only [findFirst] at h
    split at h
    · next hb =>
      have hpl : lowerStr pat = [] := bw_nil _ hb
      simp only [lowerStr] at hpl
      exact absurd (List.map_eq_nil_iff.mp hpl) hp
    · exact absurd h (by simp)
  | cons c rest ih =>
    intro pre m post h
    simp only [findFirst] at h
    split at h
    · simp only [Option.some.injEq, Prod.mk.injEq] at h
      obtain ⟨h1, -, -⟩ := h
      subst h1
      exact findFirst_nil_of_ne pat hp
    · next hb =>
      rw [Option.map_eq_some'] at h
      obtain ⟨⟨pre', m', post'⟩, hf, hx⟩ := h
      simp only [Prod.mk.injEq] at hx
      obtain ⟨h1, -, -⟩ := hx
      subst h1
      have hpre' : findFirst pat pre' = none := ih pre' m' post' hf
      have hdec : rest = pre' ++ m' ++ post' := findFirst_pieces pat rest pre' m' post' hf
      simp only [findFirst]
      rw [if_neg, Option.map_eq_none']
      · exact hpre'
      · intro hbc
        apply hb
        have hext : beginsWith (lowerStr pat) (lowerStr (c :: pre') ++ lowerStr (m' ++ post'))
            = true := bw_append_right _ _ _ hbc
        rw [hdec]
        simpa [beginsWithCI, lowerStr] using hext

/-- Losing the head of a string with no occurrence keeps it occurrence-free. -/
theorem findFirst_tail_none (pat c rest) (h : findFirst pat (c :: rest) = none) :
    findFirst pat rest = none := by
  simp only [findFirst] at h
  split at h
  · exact absurd h (by simp)
  · exact Option.map_eq_none'.mp h

/-- Dropping a prefix of a string with no occurrence keeps it occurrence-free. -/
theorem findFirst_drop_none (pat : List Char) :
    ∀ li s, findFirst pat s = none → findFirst pat (List.drop li s) = none := by
  intro li
  induction li with
  | zero => intro s h; simpa using h
  | succ k ih =>
    intro s h
    cases s with
    | nil => simpa using h
    | cons c rest => exact ih rest (findFirst_tail_none pat c rest h)

/-- Embedding of `text.split(regex)` where the regex is the whole escaped query
in one capture group with the `g` and `i` flags: the string is cut at every
leftmost case-insensitive occurrence of the literal query, and because the
pattern is one capture group the matched slices themselves appear between the
chunks, exactly as ECMAScript `String.prototype.split` returns them. -/
def splitCI (pat : List Char) (s : List Char) : List (List Char) :=
  if hp : pat = [] then [s]
  else
    match hf : findFirst pat s with
    | none => [s]
    | some (pre, m, post) => pre :: m :: splitCI pat post
termination_by s.length
decreasing_by
  have hd := findFirst_pieces pat s pre m post hf
  have hm := findFirst_mlen pat s pre m post hf
  have hp' : 0 < pat.length := List.length_pos.mpr hp
  subst hd
  simp only [List.length_append]
  omega

/-- Embedding of one `regex.test(part)` call on the shared global regex: the
search starts at the regex's current `lastIndex`; on success `lastIndex` moves
past the match, on failure it resets to 0 (ECMAScript `RegExpBuiltinExec` for a
`g` regex). The pair is (result, new `lastIndex`). -/
def testG (pat s : List Char) (lastIndex : Nat) : Bool × Nat :=
  match findFirst pat (List.drop lastIndex s) with
  | none => (false, 0)
  | some (pre, m, _) => (true, lastIndex + pre.length + m.length)

/-- Embedding of `parts.map((part, index) => regex.test(part) ? <mark>… : part)`:
the parts are visited in order, the regex's `lastIndex` threads from one `test`
call to the next, and each part is emitted flagged with its test result (`true`
= wrapped in `<mark>`). -/
def markParts (pat : List Char) : List (List Char) → Nat → List (Bool × List Char)
  | [], _ => []
  | p :: ps, lastIndex =>
    ((testG pat p lastIndex).1, p) :: markParts pat ps (testG pat p lastIndex).2

/-- Embedding of `highlightText` (src/unnamed/part_000 lines 88-99): with a
blank query the text is returned untouched (one unmarked segment); otherwise
the text is split on the escaped query — the escaping makes the regex match the
query literally — and each part is marked by a stateful `regex.test`. -/
def highlightText (text query : List Char) : List (Bool × List Char) :=
  if trimWS query = [] then [(false, text)]
  else markParts query (splitCI query text) 0

/-- `splitCI` on a string with no occurrence is the whole string. -/
theorem splitCI_none (pat s : List Char) (hp : pat ≠ []) (hf : findFirst pat s = none) :
    splitCI pat s = [s] := by
  rw [splitCI.eq_def, dif_neg hp]
  split
  · rfl
  · next pre m post heq => rw [hf] at heq; exact absurd heq (by simp)

/-- `splitCI` peels the leftmost occurrence off the front. -/
theorem splitCI_some (pat s pre m post : List Char) (hp : pat ≠ [])
    (hf : findFirst pat s = some (pre, m, post)) :
    splitCI pat s = pre :: m :: splitCI pat post := by
  rw [splitCI.eq_def, dif_neg hp]
  split
  · next heq => rw [hf] at heq; exact absurd heq (by simp)
  · next pre' m' post' heq =>
    rw [hf] at heq
    simp only [Option.some.injEq, Prod.mk.injEq] at heq
    obtain ⟨h1, h2, h3⟩ := heq
    rw [h1, h2, h3]

/-- A `test` on a part with no occurrence fails from any `lastIndex` and
resets the state. -/
theorem testG_none (pat s : List Char) (li : Nat) (h : findFirst pat s = none) :
    testG pat s li = (false, 0) := by
  simp [testG, findFirst_drop_none pat li s h]

/-- A part equal to the pattern up to case has an occurrence. -/
theorem findFirst_isSome_of_lower (pat m : List Char) (hp : pat ≠ [])
    (hl : lowerStr m = lowerStr pat) : (findFirst pat m).isSome = true := by
  have hb : beginsWithCI pat m = true := by
    simp only [beginsWithCI, hl]
    exact bw_refl _
  cases m with
  | nil =>
    have : lowerStr pat = [] := by rw [← hl]; rfl
    simp only [lowerStr] at this
    exact absurd (List.map_eq_nil_iff.mp this) hp
  | cons c rest => simp [findFirst, hb]

/-- A `test` from `lastIndex` 0 succeeds on a part equal to the pattern up to
case. -/
theorem testG_match (pat m : List Char) (hp : pat ≠ [])
    (hl : lowerStr m = lowerStr pat) : (testG pat m 0).1 = true := by
  have hs := findFirst_isSome_of_lower pat m hp hl
  rw [Option.isSome_iff_exists] at hs
  obtain ⟨⟨pre, mm, post⟩, hf⟩ := hs
  simp [testG, List.drop_zero, hf]

/-- Core of the highlighting argument: mapping the stateful `test` over the
parts of the split flags a part exactly when it contains a case-insensitive
occurrence of the pattern — whatever `lastIndex` the shared regex starts with,
because every chunk between matches is occurrence-free, so its failing `test`
resets `lastIndex` to 0 before the following match part is tested. -/
theorem markParts_splitCI (pat : List Char) (hp : pat ≠ []) :
    ∀ n s, s.length ≤ n → ∀ li b p, (b, p) ∈ markParts pat (splitCI pat s) li →
      b = containsCI pat p := by
  intro n
  induction n with
  | zero =>
    intro s hs li b p hmem
    have hnil : s = [] := List.length_eq_zero.mp (Nat.le_zero.mp hs)
    subst hnil
    rw [splitCI_none pat [] hp (findFirst_nil_of_ne pat hp)] at hmem
    simp only [markParts, List.mem_singleton, Prod.mk.injEq,
      testG_none pat [] li (findFirst_nil_of_ne pat hp), List.not_mem_nil, or_false] at hmem
    obtain ⟨hb, hpp⟩ := hmem
    subst hb; subst hpp
    simp [containsCI, findFirst_nil_of_ne pat hp]
  | succ k ih =>
    intro s hs li b p hmem
    cases hf : findFirst pat s with
    | none =>
      rw [splitCI_none pat s hp hf] at hmem
      simp only [markParts, List.mem_singleton, Prod.mk.injEq,
        testG_none pat s li hf, List.not_mem_nil, or_false] at hmem
      obtain ⟨hb, hpp⟩ := hmem
      subst hb; subst hpp
      simp [containsCI, hf]
    | some x =>
      obtain ⟨pre, m, post⟩ := x
      rw [splitCI_some pat s pre m post hp hf] at hmem
      have hchunk : findFirst pat pre = none := findFirst_chunk pat hp s pre m post hf
      have hlow : lowerStr m = lowerStr pat := findFirst_lower pat s pre m post hf
      have ht1 : testG pat pre li = (false, 0) := testG_none pat pre li hchunk
      simp only [markParts, ht1, List.mem_cons, Prod.mk.injEq] at hmem
      rcases hmem with ⟨hb, hpp⟩ | hmem
      · subst hb; subst hpp
        simp [containsCI, hchunk]
      · rcases hmem with ⟨hb, hpp⟩ | hmem
        · subst hpp; subst hb
          show (testG pat p 0).1 = containsCI pat p
          rw [testG_match pat p hp hlow]
          show true = (findFirst pat p).isSome
          rw [findFirst_isSome_of_lower pat p hp hlow]
        · have hd := findFirst_pieces pat s pre m post hf
          have hm := findFirst_mlen pat s pre m post hf
          have hp' : 0 < pat.length := List.length_pos.mpr hp
          have hpost : post.length ≤ k := by
            subst hd
            simp only [List.length_append] at hs
            omega
          exact ih post hpost _ b p hmem

/-- `Char.ofNat` of a valid scalar value converts back to the same `Nat`. -/
theorem char_toNat_ofNat (n : Nat) (h : n < 55296) : (Char.ofNat n).toNat = n := by
  have hv : n.isValidChar := Or.inl h
  simp only [Char.ofNat, hv, dite_true, Char.ofNatAux, Char.toNat, UInt32.toNat]
  rfl

/-- Characters outside the upper-case basic-latin range are fixed points of
`Char.toLower`. -/
theorem toLower_fix (c : Char) (h : ¬(c.toNat ≥ 65 ∧ c.toNat ≤ 90)) : c.toLower = c := by
  unfold Char.toLower
  exact if_neg h

/-- `Char.toLower` is idempotent (the embedding's `toLowerCase` applied twice
does nothing more). -/
theorem toLower_idem (c : Char) : c.toLower.toLower = c.toLower := by
  by_cases h : c.toNat ≥ 65 ∧ c.toNat ≤ 90
  · have h1 : c.toLower = Char.ofNat (c.toNat + 32) := by
      unfold Char.toLower
      exact if_pos h
    have ht : (Char.ofNat (c.toNat + 32)).toNat = c.toNat + 32 :=
      char_toNat_ofNat _ (by omega)
    rw [h1]
    apply toLower_fix
    rw [ht]
    omega
  · rw [toLower_fix c h, toLower_fix c h]

/-- `lowerStr` is idempotent. -/
theorem lowerStr_idem (s : List Char) : lowerStr (lowerStr s) = lowerStr s := by
  induction s with
  | nil => rfl
  | cons c rest ih =>
    simp only [lowerStr, List.map_cons] at ih ⊢
    rw [toLower_idem, ih]

/-- Trimming an all-whitespace string leaves nothing. -/
theorem trimWS_eq_nil_of_all (q : List Char) (h : ∀ c ∈ q, isWS c = true) :
    trimWS q = [] := by
  have h1 : q.dropWhile isWS = [] := by
    rw [List.dropWhile_eq_nil_iff]
    exact fun x hx => h x hx
  simp [trimWS, h1]

/-! ## Concrete states used by the witnesses and counterexamples -/

/-- A RAG page whose query is two spaces (blank after trimming). -/
def ragStBlank : RAGPageState :=
  { query := "  ".toList, ragResponse := none, loading := false,
    error := none, showSources := false }

/-- A search page whose query is one space (blank after trimming). -/
def searchStBlank : SearchPageState :=
  { query := " ".toList, results := none, loading := false, error := none }

/-- A 501-character query: typable in the earlier RAGPage variant, whose
textarea has no `maxLength`. -/
def longQuery : List Char := List.replicate 501 'a'

/-- The earlier RAG page holding the 501-character query. -/
def ragStLong : RAGPageState :=
  { query := longQuery, ragResponse := none, loading := false,
    error := none, showSources := false }

/-- A RAG page holding a short typed query. -/
def ragStHola : RAGPageState :=
  { query := "hola".toList, ragResponse := none, loading := false,
    error := none, showSources := false }

/-! ## The claims -/

/-- C1: for every query whose text is empty or consists only of whitespace,
submitting the chat or the search form performs no backend work — neither
`chatWithRAG` nor `searchArticles` is invoked, no request is issued — and the
page state (results, error, loading and the rest) is left unchanged. -/
theorem spec_C1_blank_query_no_work (s1 : RAGPageState) (s2 : SearchPageState)
    (h1 : ∀ c ∈ s1.query, isWS c = true) (h2 : ∀ c ∈ s2.query, isWS c = true) :
    handleRAGChat s1 = (s1, none) ∧ handleSearch s2 = (s2, none) := by
  constructor
  · unfold handleRAGChat
    rw [if_pos (trimWS_eq_nil_of_all _ h1)]
  · unfold handleSearch
    rw [if_pos (trimWS_eq_nil_of_all _ h2)]

/-- Witness for C1 at concrete whitespace-only page states. -/
theorem spec_C1_witness :
    (∀ c ∈ ragStBlank.query, isWS c = true) ∧
    (∀ c ∈ searchStBlank.query, isWS c = true) ∧
    handleRAGChat ragStBlank = (ragStBlank, none) ∧
    handleSearch searchStBlank = (searchStBlank, none) :=
  ⟨by decide, by decide,
   (spec_C1_blank_query_no_work ragStBlank searchStBlank (by decide) (by decide)).1,
   (spec_C1_blank_query_no_work ragStBlank searchStBlank (by decide) (by decide)).2⟩

/-- C2 counterexample: `articles_consulted` is declared with `?` in
`interface RAGResponse` (api.ts line 83), so it is an optional field, not a
required one, and a `RAGResponse` may lack it. -/
theorem spec_C2_counterexample :
    ("articles_consulted", true) ∈ ragResponseFields ∧
    ("articles_consulted", false) ∉ ragResponseFields ∧
    ragResponseNoCount.articles_consulted = none := by
  exact ⟨by decide, by decide, rfl⟩

/-- C2 as amended: in `interface RAGResponse` the required fields are exactly
`query`, `response`, `sources` and `confidence`, and the optional fields are
exactly `model_used`, `articles_consulted` and `error`. -/
theorem spec_C2_amended_fields (f : String) :
    ((f, false) ∈ ragResponseFields ↔
      (f = "query" ∨ f = "response" ∨ f = "sources" ∨ f = "confidence")) ∧
    ((f, true) ∈ ragResponseFields ↔
      (f = "model_used" ∨ f = "articles_consulted" ∨ f = "error")) := by
  constructor <;> simp [ragResponseFields]

/-- C3 counterexample: the earlier RAGPage variant (src/unnamed/part_001) has
no `maxLength` on its textarea, so a 501-character query is reachable there and
submitting it sends a chat request whose text exceeds 500 characters. -/
theorem spec_C3_counterexample :
    RagQueryReachV1 longQuery ∧
    (handleRAGChat ragStLong).2 = some (chatWithRAG longQuery (some 5)) ∧
    500 < longQuery.length ∧ trimWS longQuery ≠ [] := by
  have ht : trimWS longQuery ≠ [] := by
    set_option maxRecDepth 4000 in decide
  refine ⟨RagQueryReachV1.input [] longQuery RagQueryReachV1.init, ?_, ?_, ht⟩
  · show (if trimWS longQuery = [] then (ragStLong, none)
        else ({ ragStLong with loading := true, error := none, showSources := false },
              some (chatWithRAG longQuery (some 5)))).2
      = some (chatWithRAG longQuery (some 5))
    rw [if_neg ht]
  · have hl : longQuery.length = 501 := by
      unfold longQuery
      rw [List.length_replicate]
    omega

/-- Every query reachable on the styled RAG page is at most 500 characters:
typing is truncated by the `maxLength={500}` attribute and the example texts
are short. -/
theorem ragReach_len (q : List Char) (h : RagQueryReach q) : q.length ≤ 500 := by
  induction h with
  | init => simp
  | input q s h hl ih => exact hl
  | exampleClick q s h hs ih =>
    have hall : ∀ x ∈ ragExamples, x.length ≤ 500 := by decide
    exact hall s hs

/-- C3 as amended: on the styled RAG page (RAGPage.tsx, textarea
`maxLength={500}`) every chat request actually submitted carries the page's
query text, non-empty after trimming and at most 500 characters; the earlier
variant (src/unnamed/part_001) guarantees only non-emptiness after trimming,
its textarea being unbounded. -/
theorem spec_C3_amended_submit_bounds (st : RAGPageState) (h : RagQueryReach st.query)
    (st' : RAGPageState) (r : ApiRequest) (he : handleRAGChat st = (st', some r)) :
    List.lookup "query" r.body = some (JVal.str st.query) ∧
    trimWS st.query ≠ [] ∧ st.query.length ≤ 500 := by
  by_cases hb : trimWS st.query = []
  · unfold handleRAGChat at he
    rw [if_pos hb] at he
    exact absurd (congrArg Prod.snd he) (by simp)
  · unfold handleRAGChat at he
    rw [if_neg hb] at he
    have hr : r = chatWithRAG st.query (some 5) := by
      have hsnd := congrArg Prod.snd he
      simpa using hsnd.symm
    subst hr
    exact ⟨rfl, hb, ragReach_len st.query h⟩

/-- Witness for C3 as amended, at a concrete typed four-letter query. -/
theorem spec_C3_witness :
    RagQueryReach ragStHola.query ∧
    handleRAGChat ragStHola =
      ({ ragStHola with loading := true }, some (chatWithRAG ragStHola.query (some 5))) ∧
    (List.lookup "query" (chatWithRAG ragStHola.query (some 5)).body =
        some (JVal.str ragStHola.query) ∧
      trimWS ragStHola.query ≠ [] ∧ ragStHola.query.length ≤ 500) := by
  have hreach : RagQueryReach ragStHola.query :=
    RagQueryReach.input [] ragStHola.query RagQueryReach.init (by decide)
  have he : handleRAGChat ragStHola =
      ({ ragStHola with loading := true }, some (chatWithRAG ragStHola.query (some 5))) := by
    decide
  exact ⟨hreach, he, spec_C3_amended_submit_bounds ragStHola hreach _ _ he⟩

/-- C4: a `RAGResponse`'s confidence is 0 exactly when its sources are empty;
in particular the empty candidate set scores 0. (The scorer is modelled from
spec §4.5; its code is not under src/.) -/
theorem spec_C4_confidence_zero_iff_empty (sims : List ℚ) :
    confidenceScore sims = 0 ↔ sims = [] := by
  constructor
  · intro h
    by_contra hne
    rw [confidenceScore, if_neg hne] at h
    have hle : (1:ℚ)/10 ≤ max (1/10) (geomAgg sims) := le_max_left _ _
    rw [h] at hle
    linarith
  · intro h
    subst h
    rfl

/-- C5: with the limit argument omitted, the chat request asks for exactly 5
articles (`max_articles`) and the search request for exactly 5 results
(`n_results`). -/
theorem spec_C5_default_limit_five (q : List Char) :
    List.lookup "max_articles" (chatWithRAG q none).body = some (JVal.num 5) ∧
    List.lookup "n_results" (searchArticles q none).body = some (JVal.num 5) :=
  ⟨rfl, rfl⟩

/-- C6: `searchArticles` posts exactly the payload `{query, n_results}` to
`/search`, and the declared result shape is a record of exactly `query` and
`results` whose elements have exactly the fields `id`, `contenido`,
`similarity_score` and `distance`, all required. -/
theorem spec_C6_search_contract (q : List Char) (n : Option Nat) :
    (searchArticles q n).path = "/search" ∧
    bodyKeys (searchArticles q n) = ["query", "n_results"] ∧
    (∀ f, (f, false) ∈ searchResponseFields ↔ (f = "query" ∨ f = "results")) ∧
    (∀ x ∈ searchResponseFields, x.2 = false) ∧
    (∀ f, (f, false) ∈ searchResultFields ↔
      (f = "id" ∨ f = "contenido" ∨ f = "similarity_score" ∨ f = "distance")) ∧
    (∀ x ∈ searchResultFields, x.2 = false) := by
  refine ⟨rfl, rfl, ?_, by decide, ?_, by decide⟩
  · intro f
    simp [searchResponseFields]
  · intro f
    simp [searchResultFields]

/-- C7: the declared health-check result has `status`, `database_ready` and
`total_articles` required, and exactly `rag_enabled` and `llm_provider`
optional. -/
theorem spec_C7_health_fields (f : String) :
    ((f, false) ∈ healthResponseFields ↔
      (f = "status" ∨ f = "database_ready" ∨ f = "total_articles")) ∧
    ((f, true) ∈ healthResponseFields ↔ (f = "rag_enabled" ∨ f = "llm_provider")) := by
  constructor <;> simp [healthResponseFields]

/-- C8: for every text and every query that is non-blank after trimming,
`highlightText` wraps in `<mark>` exactly those parts of the split that contain
a case-insensitive occurrence of the (escaped, hence literal) query; in
particular two parts with identical content are marked alike. -/
theorem spec_C8_highlight_marks (text query : List Char) (hq : trimWS query ≠ []) :
    (∀ b p, (b, p) ∈ highlightText text query → (b = true ↔ containsCI query p = true)) ∧
    (∀ b₁ b₂ p, (b₁, p) ∈ highlightText text query → (b₂, p) ∈ highlightText text query →
      b₁ = b₂) := by
  have hpne : query ≠ [] := by
    intro h
    subst h
    exact hq rfl
  have key : ∀ b p, (b, p) ∈ highlightText text query → b = containsCI query p := by
    intro b p hmem
    unfold highlightText at hmem
    rw [if_neg hq] at hmem
    exact markParts_splitCI query hpne text.length text le_rfl 0 b p hmem
  constructor
  · intro b p hmem
    rw [key b p hmem]
  · intro b₁ b₂ p hm1 hm2
    rw [key b₁ p hm1, key b₂ p hm2]

/-- Witness for C8 at a concrete text and query (the text contains matches of
both casings and unmatched chunks). -/
theorem spec_C8_witness :
    trimWS ("ab".toList) ≠ [] ∧
    (∀ b p, (b, p) ∈ highlightText ("xAbab".toList) ("ab".toList) →
      (b = true ↔ containsCI ("ab".toList) p = true)) := by
  have hq : trimWS ("ab".toList) ≠ [] := by decide
  exact ⟨hq, (spec_C8_highlight_marks ("xAbab".toList) ("ab".toList) hq).1⟩

/-- C9: every reachable practice score satisfies `0 ≤ correct ≤ total`: each
answer submission adds 1 to `total` and 0 or 1 to `correct`, and the reset
returns to `(0, 0)`. -/
theorem spec_C9_score_invariant (s : Score) (h : ScoreReach s) :
    0 ≤ s.correct ∧ s.correct ≤ s.total := by
  induction h with
  | init => exact ⟨le_refl 0, le_refl 0⟩
  | submit s b h ih =>
    obtain ⟨ih1, ih2⟩ := ih
    cases b <;> simp [submitAnswerScore] <;> omega
  | reset s h ih => exact ⟨le_refl 0, le_refl 0⟩

/-- Witness for C9 at the reachable score (1, 1). -/
theorem spec_C9_witness :
    ScoreReach { correct := 1, total := 1 } ∧
    (0 ≤ ({ correct := 1, total := 1 } : Score).correct ∧
     ({ correct := 1, total := 1 } : Score).correct ≤
       ({ correct := 1, total := 1 } : Score).total) := by
  have h0 : ScoreReach (submitAnswerScore { correct := 0, total := 0 } true) :=
    ScoreReach.submit _ true ScoreReach.init
  have heq : submitAnswerScore { correct := 0, total := 0 } true
      = ({ correct := 1, total := 1 } : Score) := by decide
  rw [heq] at h0
  exact ⟨h0, spec_C9_score_invariant _ h0⟩

/-- C10: both versions of `getRelevanceColor` are invariant under lowercasing
their argument, and each always returns one of its four fixed class strings
(alta, media, baja, default). -/
theorem spec_C10_relevance_color (s : List Char) :
    getRelevanceColor s = getRelevanceColor (lowerStr s) ∧
    getRelevanceColorV1 s = getRelevanceColorV1 (lowerStr s) ∧
    (getRelevanceColor s = "bg-green-50 text-green-700 border-green-200" ∨
     getRelevanceColor s = "bg-amber-50 text-amber-700 border-amber-200" ∨
     getRelevanceColor s = "bg-red-50 text-red-700 border-red-200" ∨
     getRelevanceColor s = "bg-muted text-muted-foreground border-border") ∧
    (getRelevanceColorV1 s = "bg-green-100 text-green-800" ∨
     getRelevanceColorV1 s = "bg-yellow-100 text-yellow-800" ∨
     getRelevanceColorV1 s = "bg-red-100 text-red-800" ∨
     getRelevanceColorV1 s = "bg-gray-100 text-gray-800") := by
  have hid : lowerStr (lowerStr s) = lowerStr s := lowerStr_idem s
  refine ⟨?_, ?_, ?_, ?_⟩
  · unfold getRelevanceColor
    rw [hid]
  · unfold getRelevanceColorV1
    rw [hid]
  · unfold getRelevanceColor
    split_ifs <;> simp
  · unfold getRelevanceColorV1
    split_ifs <;> simp
